import Mathlib

/-!
# Verification of the Kirana-store Hinglish order parser

Shallow embedding of `src/order_parser.py` (class `OrderParser`): the
regex-based extractor in `parse_hinglish_order`, the unit normalizer
`normalize_unit`, the fuzzy product matcher `fuzzy_match_product` (built on
rapidfuzz's `fuzz.ratio`, the indel/LCS-based similarity, and
`process.extractOne`), and the reply composer `generate_reply`.

Strings are modelled as `List Char` of Unicode scalar values (Lean `Char`),
matching Python `str` code-point semantics.  Python floats are modelled as
exact rationals `ℚ`; the similarity ratio `fuzz.ratio` is modelled as the
exact rational `200 * lcs / (len a + len b)` (rapidfuzz computes
`100 * (1 - indel_dist / (len a + len b))` with
`indel_dist = len a + len b - 2 * lcs`, which is the same number).
-/

/-- Python `\d` restricted to the scripts this program handles
(ASCII digits and Devanagari digits U+0966–U+096F; the regex's letter class
only admits Latin and Devanagari, and Devanagari digits are the only
Unicode digits inside it). -/
def isPyDigit (c : Char) : Bool :=
  (48 ≤ c.toNat && c.toNat ≤ 57) || (0x966 ≤ c.toNat && c.toNat ≤ 0x96F)

/-- The regex word class `[a-zA-Zऀ-ॿ]` from the extraction
pattern in `parse_hinglish_order`.  The match runs under `re.IGNORECASE`,
which adds the four Unicode characters whose simple case pair falls in
`a-z`/`A-Z`: İ (U+0130), ı (U+0131), ſ (U+017F) and K (U+212A); the
Devanagari block is uncased. -/
def isWordChar (c : Char) : Bool :=
  (65 ≤ c.toNat && c.toNat ≤ 90) || (97 ≤ c.toNat && c.toNat ≤ 122) ||
  (0x900 ≤ c.toNat && c.toNat ≤ 0x97F) ||
  c.toNat = 0x130 || c.toNat = 0x131 || c.toNat = 0x17F || c.toNat = 0x212A

/-- Python `\s` / `str.strip` whitespace (ASCII whitespace plus the
Unicode space code points recognized by `str.isspace`). -/
def isSpaceChar (c : Char) : Bool :=
  let n := c.toNat
  (9 ≤ n && n ≤ 13) || n = 32 || (28 ≤ n && n ≤ 31) || n = 0x85 || n = 0xA0 ||
  n = 0x1680 || (0x2000 ≤ n && n ≤ 0x200A) || n = 0x2028 || n = 0x2029 ||
  n = 0x202F || n = 0x205F || n = 0x3000

/-- `str.lower` (exact on ASCII; Devanagari has no case, and the
character classes of this parser admit no other cased script). -/
def pyLower (l : List Char) : List Char :=
  l.map Char.toLower

/-- `str.strip()`: drop whitespace from both ends. -/
def pyStrip (l : List Char) : List Char :=
  ((l.dropWhile isSpaceChar).reverse.dropWhile isSpaceChar).reverse

/-- Numeric value of one (ASCII or Devanagari) digit, as Python's
`float`/`int` conversion assigns it. -/
def digitVal (c : Char) : Nat :=
  if 0x966 ≤ c.toNat then c.toNat - 0x966 else c.toNat - 48

/-- Value of a digit run, most significant first. -/
def digitsVal (l : List Char) : Nat :=
  l.foldl (fun acc c => 10 * acc + digitVal c) 0

/-- Python `float(s)` on the strings this parser can capture with its
quantity group `\d+(?:\.\d+)?`: a nonempty digit run with an optional
`.`-separated nonempty fractional digit run.  Python's `float` accepts any
Unicode decimal digits (it transliterates them to ASCII first) and never
raises on such strings (overflow yields `inf`, not an exception); the value
is modelled exactly as a rational.  Any other shape is a `ValueError`,
modelled as `none`. -/
def pyFloat? (s : List Char) : Option ℚ :=
  if (s.takeWhile isPyDigit).isEmpty then none
  else
    match s.dropWhile isPyDigit with
    | [] => some (digitsVal (s.takeWhile isPyDigit))
    | c :: r1 =>
      if c = '.' then
        if (r1.takeWhile isPyDigit).isEmpty || !(r1.dropWhile isPyDigit).isEmpty then none
        else
          some ((digitsVal (s.takeWhile isPyDigit) : ℚ) +
            (digitsVal (r1.takeWhile isPyDigit) : ℚ) / (10 ^ (r1.takeWhile isPyDigit).length : ℚ))
      else none

/-!
## The extraction pattern

`parse_hinglish_order` scans with
`re.findall(r'(\d+(?:\.\d+)?)\s*([a-zA-Zऀ-ॿ]+)?\s+([a-zA-Zऀ-ॿ]+(?:\s+[a-zA-Zऀ-ॿ]+)*)', text)`.

The backtracking behaviour of this particular pattern collapses to a small
deterministic case analysis:

* the optional unit group, being a greedy maximal word run followed by
  `\s+`, either matches the whole word run after the number or is skipped
  entirely (a shorter run would leave a word character where `\s+` must
  match);
* likewise each `\s+`/word run inside the product group is maximal;
* the quantity group `\d+(?:\.\d+)?` can only backtrack into shorter digit
  runs when the characters it gives back are themselves word characters
  (Devanagari digits), which `qtyAlts` enumerates in the engine's greedy
  priority order.
-/

/-- Greedy star `(?:\s+[word]+)*`: repeatedly consume a nonempty
whitespace run followed by a nonempty word run; return the consumed span
and the rest.  Fuelled for structural recursion; every call passes
`l.length`, which suffices since each round consumes at least two
characters. -/
def phraseStar : Nat → List Char → List Char × List Char
  | 0, l => ([], l)
  | fuel + 1, l =>
    let w := l.takeWhile isSpaceChar
    let r1 := l.dropWhile isSpaceChar
    let v := r1.takeWhile isWordChar
    let r2 := r1.dropWhile isWordChar
    if w.isEmpty || v.isEmpty then ([], l)
    else (w ++ v ++ (phraseStar fuel r2).1, (phraseStar fuel r2).2)

/-- Continuation `\s*([word]+)?\s+([word]+(?:\s+[word]+)*)` of the pattern
after the quantity group: returns (optional unit capture, product capture,
rest).  The product capture is the literal matched span (internal
whitespace preserved), as `re` captures it. -/
def contAfterQty (rest : List Char) : Option (Option (List Char) × List Char × List Char) :=
  let w1 := rest.takeWhile isSpaceChar
  let r1 := rest.dropWhile isSpaceChar
  let u := r1.takeWhile isWordChar
  let r2 := r1.dropWhile isWordChar
  if u.isEmpty then none
  else
    let r3 := r2.dropWhile isSpaceChar
    let e := r3.takeWhile isWordChar
    let r4 := r3.dropWhile isWordChar
    if !(r2.takeWhile isSpaceChar).isEmpty && !e.isEmpty then
      some (some u, e ++ (phraseStar r4.length r4).1, (phraseStar r4.length r4).2)
    else if !w1.isEmpty then
      some (none, u ++ (phraseStar r2.length r2).1, (phraseStar r2.length r2).2)
    else none

/-- Alternatives for the quantity group `\d+(?:\.\d+)?` at the current
position, in the regex engine's greedy priority order: the maximal digit
run with the fractional part at every length (longest first), then the
maximal digit run without a fractional part, then each shorter digit run
(which can only be followed by further digits, so no fractional part is
possible there).  Each alternative is (captured quantity, rest). -/
def qtyAlts (cs : List Char) : List (List Char × List Char) :=
  let d := cs.takeWhile isPyDigit
  let r := cs.dropWhile isPyDigit
  if d.isEmpty then []
  else
    let fracs :=
      match r with
      | c :: r1 =>
        if c = '.' then
          let s := r1.takeWhile isPyDigit
          let r' := r1.dropWhile isPyDigit
          (List.range s.length).map fun i =>
            (d ++ '.' :: s.take (s.length - i), s.drop (s.length - i) ++ r')
        else []
      | [] => []
    let plains := (List.range d.length).map fun i =>
      (d.take (d.length - i), d.drop (d.length - i) ++ r)
    fracs ++ plains

/-- One attempted match of the full pattern at the current position:
first quantity alternative whose continuation succeeds.  Returns
(quantity, optional unit, product, rest after the match). -/
def matchAt (cs : List Char) : Option (List Char × Option (List Char) × List Char × List Char) :=
  (qtyAlts cs).findSome? fun qa =>
    match contAfterQty qa.2 with
    | some (u, p, r) => some (qa.1, u, p, r)
    | none => none

/-- A raw regex match: the three captures (quantity, optional unit,
product), i.e. one element of `re.findall`'s result. -/
abbrev RawMatch := List Char × Option (List Char) × List Char

/-- `re.findall`: scan left to right; on a match continue after it, on a
failure advance one character.  A match can only start on a digit (the
pattern opens with `\d+`).  Fuelled for structural recursion; fuel
`cs.length` suffices because every step consumes at least one character. -/
def scanFuel : Nat → List Char → List RawMatch
  | 0, _ => []
  | fuel + 1, cs =>
    match cs with
    | [] => []
    | c :: cs' =>
      if isPyDigit c then
        match matchAt (c :: cs') with
        | some (q, u, p, rest) => (q, u, p) :: scanFuel fuel rest
        | none => scanFuel fuel cs'
      else scanFuel fuel cs'

/-- All matches of the extraction pattern in a message. -/
def scanMatches (s : String) : List RawMatch :=
  scanFuel s.data.length s.data

/-!
## Similarity scoring (rapidfuzz `fuzz.ratio`)

`fuzz.ratio` is the normalized indel similarity
`100 * (1 - dist / (len a + len b))` with
`dist = len a + len b - 2 * lcs a b`; we model it exactly as the rational
`200 * lcs / (len a + len b)` (and `100` when both strings are empty, as
rapidfuzz defines). -/

/-- One row update of the standard LCS dynamic program: `bs` is the rest of
the second string, `prevRow` the rest of the previous row aligned one past
the diagonal, `diag`/`left` the entries above-left and to the left. -/
def lcsRowAux (c : Char) : List Char → List Nat → Nat → Nat → List Nat
  | [], _, _, _ => []
  | _, [], _, _ => []
  | bc :: bs, up :: prev, diag, left =>
    let cur := if bc = c then diag + 1 else max left up
    cur :: lcsRowAux c bs prev up cur

/-- Next LCS row after consuming character `c` of the first string. -/
def lcsRow (c : Char) (b : List Char) (row : List Nat) : List Nat :=
  match row with
  | [] => []
  | o0 :: rest => 0 :: lcsRowAux c b rest o0 0

/-- Length of a longest common subsequence, by row dynamic programming. -/
def lcsLen (a b : List Char) : Nat :=
  (a.foldl (fun row c => lcsRow c b row) (List.replicate (b.length + 1) 0)).getLastD 0

/-- rapidfuzz `fuzz.ratio`, as an exact rational in `[0, 100]`. -/
def fuzzRatio (a b : List Char) : ℚ :=
  if a.length + b.length = 0 then 100
  else (200 * lcsLen a b : ℚ) / ((a.length : ℚ) + (b.length : ℚ))

/-!
## Static tables (`UNIT_MAPPINGS`, `PRODUCT_ALIASES`) and the matcher
-/

/-- `OrderParser.UNIT_MAPPINGS`, in declaration order. -/
def UNIT_MAPPINGS : List (String × String) :=
  [("kg", "kg"), ("kilo", "kg"), ("किलो", "kg"), ("keelo", "kg"),
   ("gm", "gm"), ("gram", "gm"), ("ग्राम", "gm"),
   ("litre", "litre"), ("liter", "litre"), ("लीटर", "litre"), ("l", "litre"),
   ("ml", "ml"), ("millilitre", "ml"),
   ("piece", "piece"), ("pcs", "piece"), ("pc", "piece"), ("पीस", "piece"),
   ("packet", "packet"), ("pkt", "packet"), ("पैकेट", "packet"),
   ("bottle", "bottle"), ("बोतल", "bottle"),
   ("box", "box"), ("बॉक्स", "box"),
   ("dozen", "dozen"), ("दर्जन", "dozen")]

/-- `OrderParser.PRODUCT_ALIASES`, in declaration (= dict insertion)
order: canonical name to ordered alias list. -/
def PRODUCT_ALIASES : List (String × List String) :=
  [("atta", ["aata", "आटा", "flour"]),
   ("milk", ["doodh", "दूध"]),
   ("rice", ["chawal", "चावल"]),
   ("sugar", ["cheeni", "चीनी"]),
   ("oil", ["tel", "तेल"]),
   ("dal", ["daal", "दाल", "lentils"]),
   ("salt", ["namak", "नमक"]),
   ("tea", ["chai", "चाय"]),
   ("biscuit", ["biskut", "बिस्कुट"])]

/-- `self.known_products = list(self.PRODUCT_ALIASES.keys())`. -/
def knownProducts : List String :=
  PRODUCT_ALIASES.map (·.1)

/-- `OrderParser.normalize_unit`: lowercase, strip, then the
`UNIT_MAPPINGS` lookup with the input itself as default. -/
def normalizeUnit (unitText : String) : String :=
  let u := String.mk (pyStrip (pyLower unitText.data))
  match UNIT_MAPPINGS.lookup u with
  | some v => v
  | none => u

/-- The alias phase of `fuzzy_match_product`, over an arbitrary alias
table: first canonical entry (in table order) one of whose aliases (in
list order) scores at least `t` against the query wins. -/
def aliasLookupOn (table : List (String × List String)) (q : List Char) (t : ℚ) :
    Option String :=
  table.findSome? fun e =>
    if e.2.any (fun al => decide (t ≤ fuzzRatio q al.data)) then some e.1 else none

/-- The alias phase of `fuzzy_match_product` over `PRODUCT_ALIASES`. -/
def aliasLookup (q : List Char) (t : ℚ) : Option String :=
  aliasLookupOn PRODUCT_ALIASES q t

/-- One step of `process.extractOne`'s search: a later choice replaces
the current best only on a strictly greater score, so the first choice
attaining the maximal score wins. -/
def bestStep (q : List Char) (acc : Option (String × ℚ)) (c : String) :
    Option (String × ℚ) :=
  match acc with
  | none => some (c, fuzzRatio q c.data)
  | some (c0, s0) =>
    if s0 < fuzzRatio q c.data then some (c, fuzzRatio q c.data) else some (c0, s0)

/-- rapidfuzz `process.extractOne(query, choices, scorer=fuzz.ratio,
score_cutoff=cutoff)`: the first choice attaining the maximal score,
returned only if that score is at least the cutoff (the cutoff is
inclusive: rapidfuzz excludes only scores strictly below it). -/
def extractOneRatio (q : List Char) (choices : List String) (cutoff : ℚ) :
    Option String :=
  match choices.foldl (bestStep q) none with
  | some (c, s) => if cutoff ≤ s then some c else none
  | none => none

/-- `OrderParser.fuzzy_match_product`: alias phase, then catalog fallback
via `extractOne`, then passthrough of the lowercased (not stripped!)
input. -/
def fuzzyMatchProduct (productText : String) (threshold : ℚ := 70) : String :=
  match aliasLookup (pyStrip (pyLower productText.data)) threshold with
  | some name => name
  | none =>
    match extractOneRatio (pyStrip (pyLower productText.data)) knownProducts threshold with
    | some name => name
    | none => String.mk (pyLower productText.data)

/-!
## `parse_hinglish_order` and `generate_reply`
-/

/-- One entry of the parsed order's `items` list. -/
structure ParsedItem where
  name : String
  quantity : ℚ
  unit : String
  original_text : String
  deriving DecidableEq, Repr

/-- The dict returned by `parse_hinglish_order`. -/
structure ParsedOrder where
  items : List ParsedItem
  original_text : String
  total_items : Nat
  deriving DecidableEq, Repr

/-- The unit allowlist checked inline in `parse_hinglish_order`:
`['kg', 'litre', 'piece', 'packet']`. -/
def unitAllowlist : List (List Char) :=
  ["kg".data, "litre".data, "piece".data, "packet".data]

/-- The loop body of `parse_hinglish_order` for one regex match: parse the
quantity (discarding the match on `ValueError`), apply the unit allowlist
heuristic (a non-allowlisted unit token is re-merged into the product
phrase and the unit defaults to `piece`), fuzzy-match the product, and
rebuild `original_text` as
`f"{quantity_str} {unit_str} {product_str}".strip()` — where `product_str`
is the possibly re-merged phrase. -/
def mkItem (m : RawMatch) : Option ParsedItem :=
  let (q, uOpt, p) := m
  match pyFloat? q with
  | none => none
  | some quantity =>
    let uStr := uOpt.getD []
    if uStr.isEmpty || pyLower uStr ∈ unitAllowlist then
      let unit := if uStr.isEmpty then "piece" else normalizeUnit (String.mk uStr)
      some { name := fuzzyMatchProduct (String.mk p), quantity := quantity,
             unit := unit,
             original_text := String.mk (pyStrip (q ++ ' ' :: (uStr ++ ' ' :: p))) }
    else
      let p' := uStr ++ ' ' :: p
      some { name := fuzzyMatchProduct (String.mk p'), quantity := quantity,
             unit := "piece",
             original_text := String.mk (pyStrip (q ++ ' ' :: (uStr ++ ' ' :: p'))) }

/-- `OrderParser.parse_hinglish_order`. -/
def parseHinglishOrder (orderText : String) : ParsedOrder :=
  let items := (scanMatches orderText).filterMap mkItem
  { items := items, original_text := orderText, total_items := items.length }

/-!
## `generate_reply`
-/

/-- Python `str(float)` for the finite-decimal values this parser
produces: integers render as `n.0`, other decimal fractions with the
minimal number of fractional digits (Python's shortest-roundtrip float
repr agrees with this on such values). -/
def floatRepr (q : ℚ) : String :=
  let sign := if q < 0 then "-" else ""
  let a := q.num.natAbs
  if q.den = 1 then sign ++ toString a ++ ".0"
  else
    match (List.range 64).find? (fun k => 10 ^ k % q.den == 0) with
    | some k =>
      let scaled := a * (10 ^ k / q.den)
      let fp := toString (scaled % 10 ^ k)
      sign ++ toString (scaled / 10 ^ k) ++ "." ++
        String.mk (List.replicate (k - fp.length) '0') ++ fp
    | none => sign ++ toString a ++ "/" ++ toString q.den

/-- Python `str.title()`: a cased character that does not follow a cased
character is uppercased, other cased characters are lowercased.  ASCII
letters are the only cased characters in this parser's alphabet
(Devanagari is uncased). -/
def pyTitle (l : List Char) : List Char :=
  (l.foldl
    (fun (acc : List Char × Bool) c =>
      if c.isAlpha then
        ((if acc.2 then c.toLower else c.toUpper) :: acc.1, true)
      else (c :: acc.1, false))
    ([], false)).1.reverse

/-- `OrderParser.generate_reply`: the fixed apology when `items` is empty
(`not parsed_order or not parsed_order.get('items')`; a missing/falsy dict
cannot arise for a structurally valid order), else the greeting, one
numbered line per item, and the two fixed trailer lines, joined with
newlines. -/
def generateReply (parsedOrder : ParsedOrder) (customerName : String) : String :=
  if parsedOrder.items.isEmpty then
    "Sorry " ++ customerName ++ ", I couldn't understand your order. Please try again."
  else
    let itemLines := (parsedOrder.items.enumFrom 1).map fun e =>
      toString e.1 ++ ". " ++ floatRepr e.2.quantity ++ " " ++ e.2.unit ++ " " ++
        String.mk (pyTitle e.2.name.data)
    String.intercalate "\n"
      (("Thank you " ++ customerName ++ "! Your order:") :: itemLines ++
       ["\nYour order is confirmed! ✅", "We'll prepare it right away."])

/-!
## Definitions taken from the spec's words (for refinement claims)
-/

/-- The alias table flattened to (canonical name, alias) pairs, canonical
entries in table-declaration order and each alias list in order. -/
def flatAliasPairs (table : List (String × List String)) : List (String × String) :=
  table.flatMap fun e => e.2.map fun al => (e.1, al)

/-- Modelled from the spec: "the first alias whose score meets or exceeds
`threshold` wins immediately; its canonical name is returned", aliases
taken "across canonical entries, in table-declaration order".  The
first-match policy stated by the spec, to be compared with the code's
nested iteration `aliasLookupOn`. -/
def specAliasFirstMatch (table : List (String × List String)) (q : List Char) (t : ℚ) :
    Option String :=
  ((flatAliasPairs table).find? fun pr => decide (t ≤ fuzzRatio q pr.2.data)).map (·.1)

/-- The shape `\d+(?:\.\d+)?` of a captured quantity string: a nonempty
digit run, optionally followed by `.` and a nonempty digit run. -/
def isQtyShape (q : List Char) : Bool :=
  match q.dropWhile isPyDigit with
  | [] => !(q.takeWhile isPyDigit).isEmpty
  | c :: r1 =>
    c = '.' && !(q.takeWhile isPyDigit).isEmpty && !r1.isEmpty && r1.all isPyDigit

/-!
## Lemmas about the quantity capture and `float`
-/

/-- Every value `float` returns on a captured quantity string is
nonnegative (the pattern admits no sign). -/
theorem pyFloat?_nonneg {q : List Char} {v : ℚ} (h : pyFloat? q = some v) : 0 ≤ v := by
  unfold pyFloat? at h
  split at h
  · exact absurd h (by simp)
  · split at h
    · rw [Option.some.injEq] at h
      subst h
      exact Nat.cast_nonneg _
    · split at h
      · split at h
        · exact absurd h (by simp)
        · rw [Option.some.injEq] at h
          subst h
          exact add_nonneg (Nat.cast_nonneg _)
            (div_nonneg (Nat.cast_nonneg _) (by positivity))
      · exact absurd h (by simp)

/-- A string of the captured shape `\d+(?:\.\d+)?` always parses. -/
theorem pyFloat?_isSome_of_shape {q : List Char} (h : isQtyShape q = true) :
    (pyFloat? q).isSome := by
  unfold isQtyShape at h
  unfold pyFloat?
  cases hdrop : q.dropWhile isPyDigit with
  | nil =>
    rw [hdrop] at h
    simp only [Bool.not_eq_true'] at h
    simp [h]
  | cons c r1 =>
    rw [hdrop] at h
    simp only [Bool.and_eq_true, Bool.not_eq_true', decide_eq_true_eq] at h
    obtain ⟨⟨⟨hc, hd⟩, hr1⟩, hall⟩ := h
    subst hc
    have htw : r1.takeWhile isPyDigit = r1 :=
      List.takeWhile_eq_self_iff.2 (by simpa [List.all_eq_true] using hall)
    have hdw : r1.dropWhile isPyDigit = [] :=
      List.dropWhile_eq_nil_iff.2 (by simpa [List.all_eq_true] using hall)
    simp [hd, htw, hdw, hr1]

/-- A nonempty all-digit string has the captured quantity shape. -/
theorem isQtyShape_digits {l : List Char} (hne : l ≠ [])
    (hall : ∀ x ∈ l, isPyDigit x) : isQtyShape l = true := by
  unfold isQtyShape
  rw [List.dropWhile_eq_nil_iff.2 hall, List.takeWhile_eq_self_iff.2 hall]
  simpa using hne

/-- Digits, a dot, then digits has the captured quantity shape. -/
theorem isQtyShape_frac {d f : List Char} (hd : d ≠ []) (hf : f ≠ [])
    (halld : ∀ x ∈ d, isPyDigit x) (hallf : ∀ x ∈ f, isPyDigit x) :
    isQtyShape (d ++ '.' :: f) = true := by
  unfold isQtyShape
  have hdot : isPyDigit '.' = false := by decide
  rw [List.dropWhile_append_of_pos halld, List.dropWhile_cons_of_neg (by simp [hdot]),
    List.takeWhile_append_of_pos halld, List.takeWhile_cons_of_neg (by simp [hdot]),
    List.append_nil]
  simp [hd, hf, List.all_eq_true.2 hallf]

/-- A `take` keeping at least one element of a list is nonempty. -/
theorem take_ne_nil_of_lt {l : List Char} {i : Nat} (hil : i < l.length) :
    l.take (l.length - i) ≠ [] := by
  intro hnil
  have hlen := congrArg List.length hnil
  rw [List.length_take] at hlen
  simp only [List.length_nil] at hlen
  omega

/-- Every quantity alternative the engine tries has the
`\d+(?:\.\d+)?` shape. -/
theorem qtyAlts_shape {cs : List Char} {qa : List Char × List Char}
    (h : qa ∈ qtyAlts cs) : isQtyShape qa.1 = true := by
  simp only [qtyAlts] at h
  by_cases hd : (cs.takeWhile isPyDigit).isEmpty
  · simp [hd] at h
  · rw [if_neg hd] at h
    have hdne : cs.takeWhile isPyDigit ≠ [] := by
      simpa [List.isEmpty_iff] using hd
    have halld : ∀ x ∈ cs.takeWhile isPyDigit, isPyDigit x :=
      fun x hx => List.mem_takeWhile_imp hx
    rcases List.mem_append.1 h with h | h
    · -- fractional alternatives
      cases hr : cs.dropWhile isPyDigit with
      | nil => rw [hr] at h; simp at h
      | cons c r1 =>
        rw [hr] at h
        dsimp only at h
        by_cases hc : c = '.'
        · rw [if_pos hc] at h
          obtain ⟨i, hi, hqa⟩ := List.mem_map.1 h
          rw [← hqa]
          dsimp only
          exact isQtyShape_frac hdne (take_ne_nil_of_lt (List.mem_range.1 hi)) halld
            (fun x hx => List.mem_takeWhile_imp (List.mem_of_mem_take hx))
        · rw [if_neg hc] at h
          simp at h
    · -- plain digit-run alternatives
      obtain ⟨i, hi, hqa⟩ := List.mem_map.1 h
      rw [← hqa]
      dsimp only
      exact isQtyShape_digits (take_ne_nil_of_lt (List.mem_range.1 hi))
        (fun x hx => halld x (List.mem_of_mem_take hx))

/-- The quantity capture of any successful match has the
`\d+(?:\.\d+)?` shape. -/
theorem matchAt_shape {cs q u p rest} (h : matchAt cs = some (q, u, p, rest)) :
    isQtyShape q = true := by
  unfold matchAt at h
  obtain ⟨qa, hmem, hqa⟩ := List.exists_of_findSome?_eq_some h
  cases hca : contAfterQty qa.2 with
  | none => rw [hca] at hqa; cases hqa
  | some t =>
    obtain ⟨u', p', r'⟩ := t
    rw [hca] at hqa
    cases hqa
    exact qtyAlts_shape hmem

/-- Every match `re.findall` emits has a quantity capture of the
`\d+(?:\.\d+)?` shape. -/
theorem scanFuel_shape :
    ∀ (fuel : Nat) (cs : List Char) (m : RawMatch),
      m ∈ scanFuel fuel cs → isQtyShape m.1 = true := by
  intro fuel
  induction fuel with
  | zero => intro cs m hm; simp [scanFuel] at hm
  | succ n ih =>
    intro cs m hm
    cases cs with
    | nil => simp [scanFuel] at hm
    | cons c cs' =>
      rw [scanFuel] at hm
      by_cases hd : isPyDigit c
      · rw [if_pos hd] at hm
        cases hma : matchAt (c :: cs') with
        | none => rw [hma] at hm; exact ih _ _ hm
        | some t =>
          obtain ⟨q, u, p, rest⟩ := t
          rw [hma] at hm
          rcases List.mem_cons.1 hm with rfl | hm'
          · exact matchAt_shape hma
          · exact ih _ _ hm'
      · rw [if_neg hd] at hm
        exact ih _ _ hm

/-!
## Lemmas about the per-match loop body
-/

/-- A match whose quantity parses is never discarded: both branches of the
unit heuristic build an item. -/
theorem mkItem_isSome {m : RawMatch} (h : (pyFloat? m.1).isSome) :
    (mkItem m).isSome := by
  obtain ⟨q, uOpt, p⟩ := m
  dsimp only at h
  obtain ⟨v, hv⟩ := Option.isSome_iff_exists.1 h
  simp only [mkItem, hv]
  split <;> rfl

/-- The quantity of any built item is the `float` value of its quantity
capture, hence nonnegative. -/
theorem mkItem_quantity_nonneg {m : RawMatch} {it : ParsedItem}
    (h : mkItem m = some it) : 0 ≤ it.quantity := by
  obtain ⟨q, uOpt, p⟩ := m
  simp only [mkItem] at h
  cases hv : pyFloat? q with
  | none => simp [hv] at h
  | some v =>
    simp only [hv] at h
    split at h <;>
      (rw [Option.some.injEq] at h; subst h; exact pyFloat?_nonneg hv)

/-!
## Lemmas about the matcher
-/

/-- The code's nested alias iteration equals the spec's description: the
first (canonical, alias) pair in flattened table order whose score clears
the threshold, mapped to its canonical name. -/
theorem aliasLookupOn_eq_spec (table : List (String × List String))
    (q : List Char) (t : ℚ) :
    aliasLookupOn table q t = specAliasFirstMatch table q t := by
  induction table with
  | nil => rfl
  | cons e rest ih =>
    obtain ⟨n, as⟩ := e
    simp only [aliasLookupOn, specAliasFirstMatch, flatAliasPairs] at *
    rw [List.flatMap_cons, List.findSome?_cons]
    induction as with
    | nil =>
      simp only [List.any_nil, if_false, List.map_nil, List.nil_append]
      exact ih
    | cons a as iha =>
      simp only [List.any_cons, List.map_cons, List.cons_append, List.find?_cons]
      by_cases ha : decide (t ≤ fuzzRatio q a.data) = true
      · simp [ha]
      · rw [Bool.not_eq_true] at ha
        simp only [ha, Bool.false_or, List.find?]
        exact iha

/-- Invariant of `extractOne`'s search fold: starting from a current best,
the fold ends on a best whose score is attained by the start or by some
choice, is no smaller than the start's score, and dominates every
choice's score. -/
theorem foldl_bestStep_spec (q : List Char) (l : List String) :
    ∀ p : String × ℚ,
      ∃ p' : String × ℚ, l.foldl (bestStep q) (some p) = some p' ∧
        (p'.2 = p.2 ∨ ∃ c ∈ l, p'.2 = fuzzRatio q c.data) ∧
        p.2 ≤ p'.2 ∧ ∀ c ∈ l, fuzzRatio q c.data ≤ p'.2 := by
  induction l with
  | nil => exact fun p => ⟨p, rfl, Or.inl rfl, le_refl _, by simp⟩
  | cons c cs ih =>
    rintro ⟨c0, s0⟩
    rw [List.foldl_cons]
    by_cases hlt : s0 < fuzzRatio q c.data
    · have hstep : bestStep q (some (c0, s0)) c = some (c, fuzzRatio q c.data) := by
        simp [bestStep, hlt]
      rw [hstep]
      obtain ⟨p', hfold, hor, hle, hall⟩ := ih (c, fuzzRatio q c.data)
      refine ⟨p', hfold, ?_, ?_, ?_⟩
      · rcases hor with heq | ⟨c', hc', heq⟩
        · exact Or.inr ⟨c, List.mem_cons_self c cs, heq⟩
        · exact Or.inr ⟨c', List.mem_cons_of_mem _ hc', heq⟩
      · exact hlt.le.trans hle
      · intro c' hc'
        rcases List.mem_cons.1 hc' with rfl | hmem
        · exact hle
        · exact hall c' hmem
    · have hstep : bestStep q (some (c0, s0)) c = some (c0, s0) := by
        simp [bestStep, hlt]
      rw [hstep]
      obtain ⟨p', hfold, hor, hle, hall⟩ := ih (c0, s0)
      refine ⟨p', hfold, ?_, hle, ?_⟩
      · rcases hor with heq | ⟨c', hc', heq⟩
        · exact Or.inl heq
        · exact Or.inr ⟨c', List.mem_cons_of_mem _ hc', heq⟩
      · intro c' hc'
        rcases List.mem_cons.1 hc' with rfl | hmem
        · exact (le_of_not_lt hlt).trans hle
        · exact hall c' hmem

/-- `extractOne` finds a result exactly when some choice's score clears
the (inclusive) cutoff. -/
theorem extractOne_isSome_iff (q : List Char) (choices : List String) (t : ℚ) :
    (extractOneRatio q choices t).isSome ↔
      ∃ c ∈ choices, t ≤ fuzzRatio q c.data := by
  cases choices with
  | nil => simp [extractOneRatio]
  | cons c0 cs =>
    unfold extractOneRatio
    rw [List.foldl_cons]
    have hstep : bestStep q none c0 = some (c0, fuzzRatio q c0.data) := rfl
    rw [hstep]
    obtain ⟨⟨pc, ps⟩, hfold, hor, hle, hall⟩ :=
      foldl_bestStep_spec q cs (c0, fuzzRatio q c0.data)
    rw [hfold]
    dsimp only at hor hle hall ⊢
    constructor
    · intro hsome
      by_cases ht : t ≤ ps
      · rcases hor with heq | ⟨c, hc, heq⟩
        · refine ⟨c0, List.mem_cons_self c0 cs, ?_⟩
          rw [heq] at ht
          exact ht
        · refine ⟨c, List.mem_cons_of_mem _ hc, ?_⟩
          rw [heq] at ht
          exact ht
      · rw [if_neg ht] at hsome
        simp at hsome
    · rintro ⟨c, hc, hct⟩
      have ht : t ≤ ps := by
        rcases List.mem_cons.1 hc with rfl | hmem
        · exact hct.trans hle
        · exact hct.trans (hall c hmem)
      rw [if_pos ht]
      rfl

/-- The alias phase finds a result exactly when some alias's score
clears the (inclusive) threshold. -/
theorem aliasLookupOn_isSome_iff (table : List (String × List String))
    (q : List Char) (t : ℚ) :
    (aliasLookupOn table q t).isSome ↔
      ∃ e ∈ table, ∃ al ∈ e.2, t ≤ fuzzRatio q al.data := by
  induction table with
  | nil => simp [aliasLookupOn]
  | cons e rest ih =>
    unfold aliasLookupOn at ih ⊢
    rw [List.findSome?_cons]
    by_cases he : e.2.any (fun al => decide (t ≤ fuzzRatio q al.data)) = true
    · rw [if_pos he]
      simp only [Option.isSome_some, true_iff]
      obtain ⟨al, hal, hsc⟩ := List.any_eq_true.1 he
      exact ⟨e, List.mem_cons_self e rest, al, hal, of_decide_eq_true hsc⟩
    · rw [if_neg he]
      dsimp only
      rw [ih]
      constructor
      · rintro ⟨e', he', al, hal, hsc⟩
        exact ⟨e', List.mem_cons_of_mem _ he', al, hal, hsc⟩
      · rintro ⟨e', he', al, hal, hsc⟩
        rcases List.mem_cons.1 he' with rfl | hmem
        · exact absurd (List.any_eq_true.2 ⟨al, hal, decide_eq_true hsc⟩) he
        · exact ⟨e', hmem, al, hal, hsc⟩

/-!
## Adequacy of the fuelled scanner

`scanMatches` runs `scanFuel` with fuel `s.data.length`.  The lemmas
below show each successful `matchAt` consumes at least one character, so
that fuel is enough: the fuelled recursion never cuts a scan short and
the embedding agrees with `re.findall`'s unbounded loop.
-/

/-- The rest returned by the phrase star is a suffix of its input. -/
theorem phraseStar_snd_suffix (fuel : Nat) :
    ∀ l : List Char, (phraseStar fuel l).2 <:+ l := by
  induction fuel with
  | zero => exact fun l => List.suffix_refl l
  | succ n ih =>
    intro l
    unfold phraseStar
    dsimp only
    split
    · exact List.suffix_refl l
    · exact ((ih _).trans (List.dropWhile_suffix _)).trans (List.dropWhile_suffix _)

/-- The rest returned by the continuation after the quantity is a suffix
of its input. -/
theorem contAfterQty_rest_suffix {rest : List Char} {u : Option (List Char)}
    {p r' : List Char} (h : contAfterQty rest = some (u, p, r')) : r' <:+ rest := by
  simp only [contAfterQty] at h
  split at h
  · exact absurd h (by simp)
  · split at h
    · cases h
      exact (phraseStar_snd_suffix _ _).trans ((List.dropWhile_suffix _).trans
        ((List.dropWhile_suffix _).trans ((List.dropWhile_suffix _).trans
          (List.dropWhile_suffix _))))
    · split at h
      · cases h
        exact (phraseStar_snd_suffix _ _).trans ((List.dropWhile_suffix _).trans
          (List.dropWhile_suffix _))
      · exact absurd h (by simp)

/-- Every quantity alternative splits the input: the capture is a
nonempty prefix and the rest is the matching suffix. -/
theorem qtyAlts_split {cs : List Char} {qa : List Char × List Char}
    (h : qa ∈ qtyAlts cs) : qa.1 ≠ [] ∧ cs = qa.1 ++ qa.2 := by
  simp only [qtyAlts] at h
  by_cases hd : (cs.takeWhile isPyDigit).isEmpty
  · simp [hd] at h
  · rw [if_neg hd] at h
    have hdne : cs.takeWhile isPyDigit ≠ [] := by
      simpa [List.isEmpty_iff] using hd
    rcases List.mem_append.1 h with h | h
    · cases hr : cs.dropWhile isPyDigit with
      | nil => rw [hr] at h; simp at h
      | cons c r1 =>
        rw [hr] at h
        dsimp only at h
        by_cases hc : c = '.'
        · rw [if_pos hc] at h
          obtain ⟨i, hi, hqa⟩ := List.mem_map.1 h
          rw [← hqa]
          dsimp only
          constructor
          · simp [hdne]
          · simp only [List.append_assoc, List.cons_append]
            rw [← List.append_assoc, List.take_append_drop,
              List.takeWhile_append_dropWhile, ← hc, ← hr,
              List.takeWhile_append_dropWhile]
        · rw [if_neg hc] at h
          simp at h
    · obtain ⟨i, hi, hqa⟩ := List.mem_map.1 h
      rw [← hqa]
      dsimp only
      refine ⟨take_ne_nil_of_lt (List.mem_range.1 hi), ?_⟩
      rw [← List.append_assoc, List.take_append_drop, List.takeWhile_append_dropWhile]

/-- A successful match consumes at least one character, so fuel equal to
the input length is always enough for the scan. -/
theorem matchAt_rest_lt {cs q : List Char} {u : Option (List Char)}
    {p rest : List Char} (h : matchAt cs = some (q, u, p, rest)) :
    rest.length < cs.length := by
  unfold matchAt at h
  obtain ⟨qa, hmem, hqa⟩ := List.exists_of_findSome?_eq_some h
  cases hca : contAfterQty qa.2 with
  | none => rw [hca] at hqa; cases hqa
  | some t =>
    obtain ⟨u', p', r'⟩ := t
    rw [hca] at hqa
    cases hqa
    obtain ⟨hne, hsplit⟩ := qtyAlts_split hmem
    have h1 : rest.length ≤ qa.2.length := (contAfterQty_rest_suffix hca).length_le
    have h2 : cs.length = qa.1.length + qa.2.length := by
      rw [hsplit, List.length_append]
    have h3 : 0 < qa.1.length := List.length_pos.2 hne
    omega

/-!
## The claims
-/

set_option maxRecDepth 8192

/-- C1 (counterexample): parsing "5 packet biscuit and 500 gm sugar" does
NOT give the second item unit gram, contrary to the claim: `'gm'` is not
in the inline allowlist `['kg', 'litre', 'piece', 'packet']`, so it is
re-merged into the product phrase and the unit defaults to piece. -/
theorem C1_units_counterexample :
    ¬ ((parseHinglishOrder "5 packet biscuit and 500 gm sugar").items.map ParsedItem.unit
      = ["packet", "gm"]) := by
  with_unfolding_all decide

/-- C1 (amended): parsing "5 packet biscuit and 500 gm sugar" yields
exactly two items: the first with unit packet and quantity 5, and the
second with quantity 500 and unit piece — the non-allowlisted unit token
"gm" having been re-merged into the product phrase (whence also the
duplicated "gm gm" in its original_text), with the name still resolving
to sugar. -/
theorem C1_amended_items :
    (parseHinglishOrder "5 packet biscuit and 500 gm sugar").items =
      [⟨"biscuit", 5, "packet", "5 packet biscuit and"⟩,
       ⟨"sugar", 500, "piece", "500 gm gm sugar"⟩] := by
  with_unfolding_all decide

/-- C2 (counterexample): parsing "2 kg atta aur 1 litre milk chahiye"
does NOT yield items named "atta" and "milk": the greedy product capture
absorbs the filler words, and neither "atta aur" nor "milk chahiye"
scores 70 against any alias or catalog name, so both pass through. -/
theorem C2_names_counterexample :
    ¬ ((parseHinglishOrder "2 kg atta aur 1 litre milk chahiye").items.map ParsedItem.name
      = ["atta", "milk"]) := by
  with_unfolding_all decide

/-- C2 (amended): parsing "2 kg atta aur 1 litre milk chahiye" yields
exactly two items in order with quantities 2 and 1 and units kg and
litre, and the filler words are not emitted as separate items — but they
are folded into the product names, which pass through as "atta aur" and
"milk chahiye" instead of resolving to "atta" and "milk". -/
theorem C2_amended_items :
    (parseHinglishOrder "2 kg atta aur 1 litre milk chahiye").items =
      [⟨"atta aur", 2, "kg", "2 kg atta aur"⟩,
       ⟨"milk chahiye", 1, "litre", "1 litre milk chahiye"⟩] := by
  with_unfolding_all decide

/-- C3 (code bug): on input "500 gm sugar" the only item's original_text
is "500 gm gm sugar" — the re-merge branch duplicates the unit token
because original_text is rebuilt from the already re-merged product
phrase — and that string is not a contiguous substring of the input,
contradicting the documented "verbatim substring matched" round-trip. -/
theorem C3_original_text_code_bug :
    (parseHinglishOrder "500 gm sugar").items.map ParsedItem.original_text =
      ["500 gm gm sugar"] ∧
    ¬ ("500 gm gm sugar".data <:+: "500 gm sugar".data) := by
  with_unfolding_all decide

/-- C4 (counterexample): on the padded input " xyzzy123 " both matcher
phases fail, yet the passthrough returns the lowercased input WITHOUT
trimming, contrary to the claim's "lowercased and trimmed". -/
theorem C4_trim_counterexample :
    aliasLookup (pyStrip (pyLower " xyzzy123 ".data)) 70 = none ∧
    extractOneRatio (pyStrip (pyLower " xyzzy123 ".data)) knownProducts 70 = none ∧
    fuzzyMatchProduct " xyzzy123 " ≠ String.mk (pyStrip (pyLower " xyzzy123 ".data)) := by
  with_unfolding_all decide

/-- C4 (amended): whenever neither the alias phase nor the catalog
fallback finds a match, `fuzzy_match_product` returns the input
lowercased but NOT trimmed (the scoring phases strip, the passthrough
does not); in particular `match_product("xyzzy123")` returns "xyzzy123"
unchanged. -/
theorem C4_amended_passthrough :
    (∀ (s : String) (t : ℚ),
      aliasLookup (pyStrip (pyLower s.data)) t = none →
      extractOneRatio (pyStrip (pyLower s.data)) knownProducts t = none →
      fuzzyMatchProduct s t = String.mk (pyLower s.data)) ∧
    fuzzyMatchProduct "xyzzy123" = "xyzzy123" := by
  constructor
  · intro s t h1 h2
    unfold fuzzyMatchProduct
    rw [h1]
    dsimp only
    rw [h2]
  · with_unfolding_all decide

/-- C4 (witness): the amended passthrough at the concrete padded input. -/
theorem C4_amended_passthrough_witness :
    fuzzyMatchProduct " xyzzy123 " 70 = String.mk (pyLower " xyzzy123 ".data) :=
  C4_amended_passthrough.1 " xyzzy123 " 70 (by with_unfolding_all decide)
    (by with_unfolding_all decide)

/-- C5 (counterexample): the loop never checks positivity: parsing
"0 atta" yields one item with quantity 0, so quantities are not strictly
positive and zero-quantity candidates are not dropped. -/
theorem C5_positive_counterexample :
    (parseHinglishOrder "0 atta").items.map ParsedItem.quantity = [0] ∧
    ¬ (∀ it ∈ (parseHinglishOrder "0 atta").items, 0 < it.quantity) := by
  with_unfolding_all decide

/-- C5 (amended): every item's quantity is NONnegative — it is the
`float` value of a captured `\d+(?:\.\d+)?` string, and the pattern
admits no sign — but zero is possible and is not dropped; only a
quantity string `float` rejects would drop a candidate (without aborting
the rest of the parse, which proceeds match by match). -/
theorem C5_amended_nonneg (s : String) (it : ParsedItem)
    (h : it ∈ (parseHinglishOrder s).items) : 0 ≤ it.quantity := by
  unfold parseHinglishOrder at h
  dsimp only at h
  obtain ⟨m, _, hm⟩ := List.mem_filterMap.1 h
  exact mkItem_quantity_nonneg hm

/-- C5 (witness): the amended bound at the zero-quantity item of
"0 atta". -/
theorem C5_amended_nonneg_witness :
    0 ≤ (ParsedItem.mk "atta" 0 "piece" "0  atta").quantity :=
  C5_amended_nonneg "0 atta" ⟨"atta", 0, "piece", "0  atta"⟩
    (by with_unfolding_all decide)

/-- C6: the alias phase is first-match, not best-match: over any alias
table it returns the canonical name of the first (canonical, alias) pair
in flattened table order whose score clears the threshold; concretely,
"chaai" resolves to "rice" through the earlier alias "chawal" even
though the later alias "chai" (of "tea") scores strictly higher. -/
theorem C6_first_match_policy :
    (∀ (table : List (String × List String)) (q : List Char) (t : ℚ),
      aliasLookupOn table q t = specAliasFirstMatch table q t) ∧
    aliasLookup "chaai".data 70 = some "rice" ∧
    (70 : ℚ) ≤ fuzzRatio "chaai".data "chawal".data ∧
    fuzzRatio "chaai".data "chawal".data < fuzzRatio "chaai".data "chai".data ∧
    fuzzyMatchProduct "chaai" = "rice" :=
  ⟨aliasLookupOn_eq_spec, by with_unfolding_all decide, by with_unfolding_all decide,
   by with_unfolding_all decide, by with_unfolding_all decide⟩

/-- C7: the threshold boundary is inclusive in both phases: each phase
finds a match exactly when some candidate's score is `≥` the threshold
(never `>`); concretely, at threshold 75 the alias "aata" scores exactly
75 against "atta" and is accepted, and the catalog name "oil" scores
exactly 75 against "oilxx" and is accepted by the fallback after the
alias phase found nothing. -/
theorem C7_inclusive_threshold :
    (∀ (q : List Char) (t : ℚ),
      (aliasLookup q t).isSome ↔
        ∃ e ∈ PRODUCT_ALIASES, ∃ al ∈ e.2, t ≤ fuzzRatio q al.data) ∧
    (∀ (q : List Char) (t : ℚ),
      (extractOneRatio q knownProducts t).isSome ↔
        ∃ c ∈ knownProducts, t ≤ fuzzRatio q c.data) ∧
    fuzzRatio "atta".data "aata".data = 75 ∧
    aliasLookup "atta".data 75 = some "atta" ∧
    fuzzRatio "oilxx".data "oil".data = 75 ∧
    aliasLookup "oilxx".data 75 = none ∧
    extractOneRatio "oilxx".data knownProducts 75 = some "oil" ∧
    fuzzyMatchProduct "oilxx" 75 = "oil" :=
  ⟨fun q t => aliasLookupOn_isSome_iff PRODUCT_ALIASES q t,
   fun q t => extractOne_isSome_iff q knownProducts t,
   by with_unfolding_all decide, by with_unfolding_all decide,
   by with_unfolding_all decide, by with_unfolding_all decide,
   by with_unfolding_all decide, by with_unfolding_all decide⟩

/-- C8: `parse_hinglish_order` is total (a Lean function; malformed
input degrades per-token, it never raises) and the returned dict always
satisfies `total_items == len(items)` and carries the input back in
`original_text`, an order with zero items being an ordinary value of the
type. -/
theorem C8_total_items_length (s : String) :
    (parseHinglishOrder s).total_items = (parseHinglishOrder s).items.length ∧
    (parseHinglishOrder s).original_text = s :=
  ⟨rfl, rfl⟩

/-- C9: parsing the empty message gives the empty order, and
`generate_reply` on any order with no items returns the fixed
"couldn't understand" apology addressed to the customer. -/
theorem C9_empty_order_reply :
    parseHinglishOrder "" = ⟨[], "", 0⟩ ∧
    ∀ (o : ParsedOrder) (customerName : String), o.items = [] →
      generateReply o customerName =
        "Sorry " ++ customerName ++ ", I couldn't understand your order. Please try again." := by
  constructor
  · rfl
  · intro o customerName h
    unfold generateReply
    rw [h]
    rfl

/-- C9 (witness): the empty-order reply at a concrete order and name. -/
theorem C9_empty_order_reply_witness :
    generateReply ⟨[], "", 0⟩ "Asha" =
      "Sorry " ++ "Asha" ++ ", I couldn't understand your order. Please try again." :=
  C9_empty_order_reply.2 ⟨[], "", 0⟩ "Asha" rfl

/-- A `filterMap` whose function succeeds on every element keeps the
length. -/
theorem length_filterMap_of_isSome {α β : Type} {f : α → Option β} :
    ∀ {l : List α}, (∀ a ∈ l, (f a).isSome) → (l.filterMap f).length = l.length := by
  intro l
  induction l with
  | nil => intro _; rfl
  | cons a as ih =>
    intro h
    rw [List.filterMap_cons]
    obtain ⟨b, hb⟩ := Option.isSome_iff_exists.1 (h a (List.mem_cons_self a as))
    rw [hb]
    simp only [List.length_cons]
    rw [ih fun x hx => h x (List.mem_cons_of_mem _ hx)]

/-- C10: the `except ValueError: continue` branch is unreachable — every
quantity string the extraction pattern captures has the shape
`\d+(?:\.\d+)?`, on which `float` always succeeds, so every scanned
match becomes an item, none is discarded for a numeric parse failure,
and the parse emits exactly one item per match. -/
theorem C10_no_quantity_failure (s : String) :
    (∀ m ∈ scanMatches s, (pyFloat? m.1).isSome ∧ (mkItem m).isSome) ∧
    (parseHinglishOrder s).items.length = (scanMatches s).length := by
  have hall : ∀ m ∈ scanMatches s, (pyFloat? m.1).isSome ∧ (mkItem m).isSome := by
    intro m h
    have hshape := scanFuel_shape s.data.length s.data m h
    have hfloat := pyFloat?_isSome_of_shape hshape
    exact ⟨hfloat, mkItem_isSome hfloat⟩
  refine ⟨hall, ?_⟩
  unfold parseHinglishOrder
  dsimp only
  exact length_filterMap_of_isSome fun m h => (hall m h).2

/-- C10 (witness): the non-discarding at a concrete scanned match. -/
theorem C10_no_quantity_failure_witness :
    (pyFloat? "5".data).isSome ∧
    (mkItem ("5".data, some "packet".data, "biscuit and".data)).isSome :=
  (C10_no_quantity_failure "5 packet biscuit and 500 gm sugar").1
    ("5".data, some "packet".data, "biscuit and".data)
    (by with_unfolding_all decide)
